import Mathlib

/-!
Verification development for the `webhook-react-tag` module (src/index.js): a
swig template-engine tag that server-renders a named UI component, wrapped in a
container element carrying `data-react-component` and `data-react-props`
attributes.

The JavaScript source is shallowly embedded:
  * the tag compiler `compile` (source lines 65-134) becomes a pure function
    from the token-argument list to `Except` (a thrown `Error` becomes
    `.error`);
  * the render-time function expression emitted by `compile` (source lines
    109-130) becomes `renderTag`, with JavaScript's `JSON.stringify` modelled
    on a fragment type `Json` (null, booleans, integer numbers, strings,
    arrays, objects) and `String.prototype.replace` modelled literally
    (regex `/"/g` replaces every occurrence, a plain string pattern only the
    first);
  * the per-token parse handlers (source lines 139-167) become a step function
    on the handler closure state;
  * the render bridge `renderReactComponentToString` (source lines 179-189)
    and the registry helper `extendComponents` (source lines 213-222) become
    functions over an association-list model of a JavaScript object's own
    properties, with `typeof` and `Object.prototype` modelled explicitly.
-/

set_option linter.unusedVariables false

namespace WebhookReactTag

/-- Literal `STR_WITH` from the source (line 53). -/
def STR_WITH : String := "with"

/-- Literal `STR_OBJ_OPEN` from the source (line 54): an opening brace token. -/
def STR_OBJ_OPEN : String := "\x7b"

/-- Literal `STR_OBJ_CLOSE` from the source (line 55): a closing brace token. -/
def STR_OBJ_CLOSE : String := "\x7d"

/-- Literal `STR_IN` from the source (line 56). -/
def STR_IN : String := "in"

/-- JavaScript string coercion of a possibly-undefined string value, as it
happens when the value meets `+` on a string: `undefined` prints as
`undefined`. -/
def jsOf : Option String → String
  | some s => s
  | none => "undefined"

mutual
/-- The argument loop of `compile` (source lines 74-106): dequeue tokens while
they are truthy; `with` takes the next token as `props` (entering the
balanced-brace scan when that token is exactly the opening brace); `in` takes
the next token as `container`; any other truthy token throws; a falsy (empty)
token ends the loop. -/
def compileParseArgs : List String → Option String → Option String →
    Except String (Option String × Option String)
  | [], props, container => .ok (props, container)
  | arg :: rest, props, container =>
    if arg = "" then .ok (props, container)
    else if arg = STR_WITH then
      match rest with
      | [] => .ok (none, container)
      | p :: rest2 =>
        if p = STR_OBJ_OPEN then compileScan rest2 1 0 STR_OBJ_OPEN container
        else compileParseArgs rest2 (some p) container
    else if arg = STR_IN then
      match rest with
      | [] => .ok (props, none)
      | ctr :: rest2 => compileParseArgs rest2 props (some ctr)
    else .error ("Unexpected argument \"" ++ arg ++ "\" in react tag.")
/-- The inner balanced-brace loop of `compile` (source lines 79-95), resuming
the outer argument loop when it ends.  State `o`/`c` are
`objOpenings`/`objClosings`, `acc` is `objParts`.  Each dequeued truthy token
bumps the matching counter and is appended to `acc`; at a closing-brace token
with the counters equal, `props` becomes the accumulated string and the outer
loop resumes.  A falsy (empty) token or exhaustion ends the inner loop with
`props` still the plain `{` token (the accumulated string is discarded). -/
def compileScan : List String → Nat → Nat → String → Option String →
    Except String (Option String × Option String)
  | [], _, _, _, container => .ok (some STR_OBJ_OPEN, container)
  | t :: ts, o, c, acc, container =>
    if t = "" then compileParseArgs ts (some STR_OBJ_OPEN) container
    else
      let o2 := if t = STR_OBJ_OPEN then o + 1 else o
      let c2 := if t = STR_OBJ_CLOSE then c + 1 else c
      let acc2 := acc ++ t
      if t = STR_OBJ_CLOSE ∧ o2 = c2 then
        compileParseArgs ts (some acc2) container
      else compileScan ts o2 c2 acc2 container
end

/-- The code string built by `compile` (source lines 109-130), with
`componentName`, `props` and `container` spliced in by JavaScript string
concatenation (an undefined value prints as `undefined`). -/
def emitJs (componentName props container : Option String) : String :=
  "_output += (function(props, container) \x7b"
  ++ "props = props || \x7b\x7d;"
  ++ "container = container || \x7b tag: 'div' \x7d;"
  ++ "var __o = '<' + container.tag;"
  ++ "var __p = JSON.stringify(props).replace(/\"/g, \"&quot;\");"
  ++ "for (var key in container) \x7b"
  ++ "var val;"
  ++ "if (container.hasOwnProperty(key) && key !== 'tag') \x7b"
  ++ "val = container[key].replace('\"', '&quot;');"
  ++ "__o += ' ' + key + '=\"' + val + '\"';"
  ++ "\x7d"
  ++ "\x7d"
  ++ "__o += ' data-react-component=\"" ++ jsOf componentName ++ "\"';"
  ++ "__o += ' data-react-props=\"' + __p + '\">';"
  ++ "__o += _ext.react('" ++ jsOf componentName ++ "', props);"
  ++ "__o += '</' + container.tag + '>';"
  ++ "return __o;"
  ++ "\x7d)(" ++ jsOf props ++ ", " ++ jsOf container ++ ");\n"

/-- The compile-time options object: the only field the source reads is
`reactComponentRoot` (line 66). -/
structure CompileOptions where
  reactComponentRoot : Option String

/-- The tag compiler `compile(compiler, args, content, parents, options)`
(source lines 65-134).  `componentRoot` is read from the options (line 66) and
never used again; the first argument is shifted off as the component name; the
remaining arguments run through the argument loop; the emitted code string is
returned, or the loop's error is thrown. -/
def compile (compiler : String) (args : List String) (content : String)
    (parents : String) (options : CompileOptions) : Except String String :=
  let componentRoot := options.reactComponentRoot.getD "./"
  let componentName := args.head?
  match compileParseArgs args.tail none none with
  | .ok (props, container) => .ok (emitJs componentName props container)
  | .error e => .error e

/-! ## A JSON value fragment and `JSON.stringify`

`compile` never inspects the evaluated props value: the emitted code hands it
to `JSON.stringify` (source line 113).  The fragment modelled here covers
null, booleans, integer-valued numbers, strings without control characters,
arrays and objects; keys and string payloads are `List Char`. -/

mutual
inductive Json where
  | null : Json
  | bool (b : Bool) : Json
  | num (n : Int) : Json
  | str (s : List Char) : Json
  | arr (items : JsonArr) : Json
  | obj (members : JsonObj) : Json
inductive JsonArr where
  | nil : JsonArr
  | cons (hd : Json) (tl : JsonArr) : JsonArr
inductive JsonObj where
  | nil : JsonObj
  | cons (key : List Char) (val : Json) (tl : JsonObj) : JsonObj
end

/-- Decimal digits of a natural number, most significant first, prepended to
`acc` (the digit characters JavaScript's number-to-string conversion
produces). -/
def natCharsGo (n : Nat) (acc : List Char) : List Char :=
  let d := Char.ofNat (48 + n % 10)
  if n < 10 then d :: acc else natCharsGo (n / 10) (d :: acc)
termination_by n
decreasing_by exact Nat.div_lt_self (by omega) (by omega)

/-- Decimal representation of a natural number. -/
def natChars (n : Nat) : List Char := natCharsGo n []

/-- JavaScript's rendering of an integer-valued number. -/
def numChars (n : Int) : List Char :=
  if n < 0 then '-' :: natChars n.natAbs else natChars n.toNat

/-- JSON string-body escaping as `JSON.stringify` performs it on the modelled
fragment: a double quote becomes a backslash-quote pair, a backslash is
doubled, every other character is kept. -/
def jsonEscapeStr : List Char → List Char
  | [] => []
  | ch :: cs =>
    (if ch = '"' then ['\\', '"']
     else if ch = '\\' then ['\\', '\\']
     else [ch]) ++ jsonEscapeStr cs

mutual
/-- `JSON.stringify` on the modelled fragment. -/
def stringifyJson : Json → List Char
  | .num n => numChars n
  | .bool false => ['f', 'a', 'l', 's', 'e']
  | .null => ['n', 'u', 'l', 'l']
  | .bool true => ['t', 'r', 'u', 'e']
  | .str s => '"' :: (jsonEscapeStr s ++ ['"'])
  | .arr items => '[' :: (stringifyArr items ++ [']'])
  | .obj members => '{' :: (stringifyObj members ++ ['}'])
/-- Comma-separated stringification of array items. -/
def stringifyArr : JsonArr → List Char
  | .nil => []
  | .cons v .nil => stringifyJson v
  | .cons v (.cons w tl) =>
    stringifyJson v ++ ',' :: stringifyArr (.cons w tl)
/-- Comma-separated stringification of object members, each a quoted escaped
key, a colon and the stringified value. -/
def stringifyObj : JsonObj → List Char
  | .nil => []
  | .cons k v .nil => '"' :: (jsonEscapeStr k ++ '"' :: ':' :: stringifyJson v)
  | .cons k v (.cons k2 v2 tl) =>
    '"' :: (jsonEscapeStr k ++ '"' :: ':' :: stringifyJson v)
      ++ ',' :: stringifyObj (.cons k2 v2 tl)
end

/-- Accumulate the numeric value of a run of decimal digit characters. -/
def digitsToNat (ds : List Char) : Nat :=
  ds.foldl (fun a ch => a * 10 + (ch.toNat - 48)) 0

/-- Parse a nonempty maximal run of decimal digits into its value and return
the rest of the input. -/
def parseNatDigits (l : List Char) : Option (Nat × List Char) :=
  let ds := l.takeWhile Char.isDigit
  if ds.isEmpty then none else some (digitsToNat ds, l.dropWhile Char.isDigit)

/-- Decode one character of a JSON backslash escape. -/
def decodeEscChar (ch : Char) : Option Char :=
  if ch = '"' then some '"'
  else if ch = '\\' then some '\\'
  else if ch = '/' then some '/'
  else if ch = 'n' then some '\n'
  else if ch = 't' then some '\t'
  else if ch = 'r' then some '\r'
  else if ch = 'b' then some (Char.ofNat 8)
  else if ch = 'f' then some (Char.ofNat 12)
  else none

/-- Parse the body of a JSON string after its opening quote, returning the
decoded characters and the input after the closing quote. -/
def parseStrRest : List Char → Option (List Char × List Char)
  | [] => none
  | ch :: rest =>
    if ch = '"' then some ([], rest)
    else if ch = '\\' then
      match rest with
      | [] => none
      | e :: rest2 =>
        match decodeEscChar e, parseStrRest rest2 with
        | some d, some (s, r) => some (d :: s, r)
        | _, _ => none
    else
      match parseStrRest rest with
      | some (s, r) => some (ch :: s, r)
      | none => none

/-- Wrap a parsed string body as a JSON string value. -/
def parseStrAsJson (rest : List Char) : Option (Json × List Char) :=
  match parseStrRest rest with
  | some (s, r) => some (.str s, r)
  | none => none

/-- A minus sign followed by digits: a negative number. -/
def parseNumNeg (rest : List Char) : Option (Json × List Char) :=
  match parseNatDigits rest with
  | some (m, r) => some (.num (-(m : Int)), r)
  | none => none

/-- A digit-headed input: a nonnegative number. -/
def parseNumPos (l : List Char) : Option (Json × List Char) :=
  match parseNatDigits l with
  | some (m, r) => some (.num (m : Int), r)
  | none => none

/-- The tail of the literal `null`. -/
def parseNullAfterN (l : List Char) : Option (Json × List Char) :=
  if l.take 3 = ['u', 'l', 'l'] then some (.null, l.drop 3) else none

/-- The tail of the literal `true`. -/
def parseTrueAfterT (l : List Char) : Option (Json × List Char) :=
  if l.take 3 = ['r', 'u', 'e'] then some (.bool true, l.drop 3) else none

/-- The tail of the literal `false`. -/
def parseFalseAfterF (l : List Char) : Option (Json × List Char) :=
  if l.take 4 = ['a', 'l', 's', 'e'] then some (.bool false, l.drop 4) else none

/-- Wrap parsed array items as a JSON array value. -/
def jsonOfArrItems : Option (JsonArr × List Char) → Option (Json × List Char)
  | some (items, r) => some (.arr items, r)
  | none => none

/-- Wrap parsed object members as a JSON object value. -/
def jsonOfObjItems : Option (JsonObj × List Char) → Option (Json × List Char)
  | some (ms, r) => some (.obj ms, r)
  | none => none

/-- Prepend a parsed array item to the parsed remainder of the array. -/
def consArrItem (v : Json) : Option (JsonArr × List Char) →
    Option (JsonArr × List Char)
  | some (tl, r2) => some (.cons v tl, r2)
  | none => none

/-- Prepend a parsed object member to the parsed remainder of the object. -/
def consObjItem (k : List Char) (v : Json) : Option (JsonObj × List Char) →
    Option (JsonObj × List Char)
  | some (tl, r3) => some (.cons k v tl, r3)
  | none => none

mutual
/-- A whitespace-free JSON parser over the modelled fragment, with fuel.  Its
language is a sublanguage of JSON: whatever it accepts, `JSON.parse` accepts
with the same value, and `JSON.stringify` output is inside the sublanguage. -/
def parseVal : Nat → List Char → Option (Json × List Char)
  | 0, _ => none
  | _ + 1, [] => none
  | fuel + 1, ch :: rest =>
    if ch = '"' then parseStrAsJson rest
    else if ch = '[' then parseArrAfterOpen fuel rest
    else if ch = '{' then parseObjAfterOpen fuel rest
    else if ch = '-' then parseNumNeg rest
    else if ch.isDigit then parseNumPos (ch :: rest)
    else if ch = 'n' then parseNullAfterN rest
    else if ch = 't' then parseTrueAfterT rest
    else if ch = 'f' then parseFalseAfterF rest
    else none
  termination_by f _ => f * 8
  decreasing_by all_goals omega
/-- After an opening bracket: an immediate closing bracket is the empty
array, anything else must be a nonempty item run. -/
def parseArrAfterOpen (fuel : Nat) (l : List Char) : Option (Json × List Char) :=
  if l.head? = some ']' then some (.arr .nil, l.tail)
  else jsonOfArrItems (parseArrItems fuel l)
  termination_by fuel * 8 + 4
  decreasing_by all_goals omega
/-- After an opening brace: an immediate closing brace is the empty object,
anything else must be a nonempty member run. -/
def parseObjAfterOpen (fuel : Nat) (l : List Char) : Option (Json × List Char) :=
  if l.head? = some '}' then some (.obj .nil, l.tail)
  else jsonOfObjItems (parseObjItems fuel l)
  termination_by fuel * 8 + 4
  decreasing_by all_goals omega
/-- Parse a nonempty comma-separated run of array items up to the closing
bracket. -/
def parseArrItems : Nat → List Char → Option (JsonArr × List Char)
  | 0, _ => none
  | fuel + 1, input =>
    match parseVal fuel input with
    | some (v, r) => parseArrTail fuel v r
    | none => none
  termination_by f _ => f * 8 + 1
  decreasing_by all_goals omega
/-- After one array item: a closing bracket ends the array, a comma demands
further items. -/
def parseArrTail (fuel : Nat) (v : Json) (l : List Char) :
    Option (JsonArr × List Char) :=
  if l.head? = some ']' then some (.cons v .nil, l.tail)
  else if l.head? = some ',' then consArrItem v (parseArrItems fuel l.tail)
  else none
  termination_by fuel * 8 + 2
  decreasing_by all_goals omega
/-- Parse a nonempty comma-separated run of object members up to the closing
brace. -/
def parseObjItems : Nat → List Char → Option (JsonObj × List Char)
  | 0, _ => none
  | _ + 1, [] => none
  | fuel + 1, ch :: rest =>
    if ch = '"' then parseObjKey fuel (parseStrRest rest) else none
  termination_by f _ => f * 8 + 1
  decreasing_by all_goals omega
/-- After an object key string: demand a colon, then a value. -/
def parseObjKey (fuel : Nat) : Option (List Char × List Char) →
    Option (JsonObj × List Char)
  | none => none
  | some (k, r) =>
    if r.head? = some ':' then parseObjValue fuel k (parseVal fuel r.tail)
    else none
  termination_by o => fuel * 8 + 3
  decreasing_by all_goals omega
/-- After an object member's value: a closing brace ends the object, a comma
demands further members. -/
def parseObjValue (fuel : Nat) (k : List Char) : Option (Json × List Char) →
    Option (JsonObj × List Char)
  | none => none
  | some (v, r) =>
    if r.head? = some ',' then consObjItem k v (parseObjItems fuel r.tail)
    else if r.head? = some '}' then some (.cons k v .nil, r.tail)
    else none
  termination_by o => fuel * 8 + 2
  decreasing_by all_goals omega
end

/-- JSON decoding of a whole input: parse one value and require the input to
be fully consumed, as `JSON.parse` does. -/
def jsonParse (l : List Char) : Option Json :=
  match parseVal (l.length + 1) l with
  | some (v, []) => some v
  | _ => none

mutual
/-- Fuel lower bound for `parseVal` on stringified output. -/
def szV : Json → Nat
  | .null => 1
  | .bool _ => 1
  | .num _ => 1
  | .str _ => 1
  | .arr xs => 1 + szA xs
  | .obj ms => 1 + szO ms
/-- Fuel lower bound for `parseArrItems` on stringified output. -/
def szA : JsonArr → Nat
  | .nil => 0
  | .cons v tl => 1 + szV v + szA tl
/-- Fuel lower bound for `parseObjItems` on stringified output. -/
def szO : JsonObj → Nat
  | .nil => 0
  | .cons _ v tl => 1 + szV v + szO tl
end

/-! ## HTML-entity quote escaping of the serialized props -/

/-- The six characters of the HTML entity for a double quote. -/
def quotEnt : List Char := ['&', 'q', 'u', 'o', 't', ';']

/-- `JSON.stringify(props).replace(/"/g, "&quot;")` (source line 113): the
regular expression is global, so every double quote is replaced. -/
def quotEscape : List Char → List Char
  | [] => []
  | ch :: cs => (if ch = '"' then quotEnt else [ch]) ++ quotEscape cs

/-- Reversing the quote escaping: replace every (leftmost, non-overlapping)
occurrence of `&quot;` by a double quote, the way a global string replace
would. -/
def quotUnescape (l : List Char) : List Char :=
  match l with
  | [] => []
  | ch :: cs =>
    if quotEnt.isPrefixOf (ch :: cs) then '"' :: quotUnescape (cs.drop 5)
    else ch :: quotUnescape cs
termination_by l.length
decreasing_by
  all_goals simp [List.length_drop]
  omega

/-- Whether `&quot;` occurs in `l`. -/
def hasQuotEnt : List Char → Bool
  | [] => false
  | ch :: cs => quotEnt.isPrefixOf (ch :: cs) || hasQuotEnt cs

/-- Whether `pat` occurs contiguously in `l` (markup "contains" a given
attribute text). -/
def listIncludes (pat : List Char) : List Char → Bool
  | [] => pat.isEmpty
  | ch :: cs => pat.isPrefixOf (ch :: cs) || listIncludes pat cs

/-! ## JavaScript objects as association lists of own properties -/

/-- Own-property lookup on an association-list model of a JavaScript object:
the value at the first matching key. -/
def getProp {K C : Type} [DecidableEq K] : List (K × C) → K → Option C
  | [], _ => none
  | kv :: m, k => if kv.1 = k then some kv.2 else getProp m k

/-- JavaScript property assignment `target[k] = v`: overwrite in place when
the key exists, else append (insertion order is preserved). -/
def setKey {K C : Type} [DecidableEq K] (m : List (K × C)) (k : K) (v : C) :
    List (K × C) :=
  if m.any (fun kv => kv.1 = k) then
    m.map fun kv => if kv.1 = k then (k, v) else kv
  else m ++ [(k, v)]

/-- `Object.assign(target, source)`: assign each own property of `source`, in
order, onto `target`. -/
def jsAssign {K C : Type} [DecidableEq K] (t s : List (K × C)) : List (K × C) :=
  s.foldl (fun acc kv => setKey acc kv.1 kv.2) t

/-- The value of the last binding of `k` in `s`, if any. -/
def lastProp {K C : Type} [DecidableEq K] (s : List (K × C)) (k : K) : Option C :=
  getProp s.reverse k

/-! ## The render-time semantics of the emitted code (source lines 109-130) -/

/-- JavaScript truthiness of a `Json` value (`props || {}` on line 110
replaces a falsy evaluated props value by an empty object). -/
def jsTruthy : Json → Bool
  | .null => false
  | .bool b => b
  | .num n => n ≠ 0
  | .str s => s ≠ []
  | .arr _ => true
  | .obj _ => true

/-- The default container `{ tag: 'div' }` (source line 111). -/
def containerDefault : List (List Char × List Char) :=
  [("tag".toList, "div".toList)]

/-- `container.tag` under string coercion: a missing property is `undefined`
and prints as `undefined`. -/
def tagNameOf (container : List (List Char × List Char)) : List Char :=
  (getProp container "tag".toList).getD "undefined".toList

/-- `String.prototype.replace` with the plain-string pattern `'"'` (source
line 117): only the first double quote is replaced. -/
def replaceFirstQuote : List Char → List Char
  | [] => []
  | ch :: cs => if ch = '"' then quotEnt ++ cs else ch :: replaceFirstQuote cs

/-- The attribute text the emitted loop appends for one container entry
(source line 118). -/
def attrOf (kv : List Char × List Char) : List Char :=
  ' ' :: kv.1 ++ '=' :: '"' :: replaceFirstQuote kv.2 ++ ['"']

/-- The `for (var key in container)` loop (source lines 114-120): every own
key except `tag` appends its attribute text to the accumulator. -/
def attrLoop (container : List (List Char × List Char)) (start : List Char) :
    List Char :=
  container.foldl
    (fun o kv => if kv.1 ≠ "tag".toList then o ++ attrOf kv else o) start

/-- The value of the `data-react-props` attribute: the serialized props with
every double quote escaped (source line 113). -/
def propsAttr (props : Json) : List Char :=
  quotEscape (stringifyJson props)

/-- The container start tag with its attributes, as `__o` stands after source
line 124: tag name, container attributes, `data-react-component`, then
`data-react-props`. -/
def openTagOf (componentName : List Char) (props : Json)
    (container : List (List Char × List Char)) : List Char :=
  attrLoop container ('<' :: tagNameOf container)
    ++ " data-react-component=\"".toList ++ componentName ++ ['"']
    ++ " data-react-props=\"".toList ++ propsAttr props ++ "\">".toList

/-- The closing tag (source line 128). -/
def closeTagOf (container : List (List Char × List Char)) : List Char :=
  '<' :: '/' :: tagNameOf container ++ ['>']

/-- `__o += _ext.react(...)`: JavaScript `+=` coerces an undefined return
value to the text `undefined`. -/
def jsStrOfOpt : Option (List Char) → List Char
  | some s => s
  | none => "undefined".toList

/-- `props || {}` (source line 110): a falsy or undefined evaluated props
value becomes an empty object. -/
def jsPropsOrEmpty : Option Json → Json
  | some p => if jsTruthy p then p else Json.obj .nil
  | none => Json.obj .nil

/-- The render-time semantics of the function expression emitted by `compile`
(source lines 109-130), applied to the evaluated `props` and `container`
values (`none` models `undefined`): default the props and container, build the
start tag with attributes, append the extension's markup, close the tag. -/
def renderTag (componentName : List Char) (propsVal : Option Json)
    (containerVal : Option (List (List Char × List Char)))
    (ext : List Char → Json → Option (List Char)) : List Char :=
  let props := jsPropsOrEmpty propsVal
  let container := containerVal.getD containerDefault
  openTagOf componentName props container
    ++ jsStrOfOpt (ext componentName props)
    ++ closeTagOf container

/-! ## The render bridge (source lines 179-189) -/

/-- The own enumerable-or-not method keys of `Object.prototype` in a
JavaScript runtime: names a bare `{}` inherits but does not own.  Not part of
the repository; listed to state that `hasOwnProperty` ignores them. -/
def objectProtoKeys : List (List Char) :=
  ["constructor".toList, "hasOwnProperty".toList, "isPrototypeOf".toList,
   "propertyIsEnumerable".toList, "toLocaleString".toList, "toString".toList,
   "valueOf".toList]

/-- The diagnostic `console.error` prints for a missing component (source
lines 185-187). -/
def missingMsg (componentName : List Char) : List Char :=
  '"' :: componentName
    ++ "\" component does not exist in components supplied.\n      Try extending @risd/webhook-react-tag with an object that includes ".toList
    ++ componentName
    ++ ".\n      ie: require('@risd/webhook-react-tag').components( \x7b ".toList
    ++ componentName ++ " \x7d )".toList

/-- The render bridge `renderReactComponentToString` (source lines 179-189)
over a registry of own properties and an opaque server renderer `rts`
(`ReactDOMServer.renderToString` composed with `React.createElement`).  The
first component is the returned markup (`none` is the implicit `undefined`
return), the second what was printed on the error channel. -/
def renderReactComponentToString {C : Type}
    (registry : List (List Char × C)) (rts : C → Json → List Char)
    (componentName : List Char) (props : Json) :
    Option (List Char) × Option (List Char) :=
  match getProp registry componentName with
  | some comp => (some (rts comp props), none)
  | none => (none, some (missingMsg componentName))

/-! ## The component registry helper (source lines 213-222) -/

/-- A JavaScript argument value as `extendComponents` can receive it, with
just enough structure for `typeof`. -/
inductive JsArg (C : Type) where
  | obj (members : List (String × C)) : JsArg C
  | nul : JsArg C
  | undef : JsArg C
  | boolv (b : Bool) : JsArg C
  | numv (n : Int) : JsArg C
  | strv (s : String) : JsArg C

/-- `typeof x === 'object'`: true for objects and for `null`. -/
def typeofIsObject {C : Type} : JsArg C → Bool
  | .obj _ => true
  | .nul => true
  | _ => false

/-- `Object.assign(components, arg)` for an argument that passed the `typeof`
check: merging an object, or a no-op for `null`. -/
def assignArg {C : Type} (registry : List (String × C)) : JsArg C →
    List (String × C)
  | .obj ms => jsAssign registry ms
  | _ => registry

/-- The error message thrown by `extendComponents` (source line 217). -/
def extendErr : String := "`extendComponents` expects objects to be passed in."

/-- `extendComponents` (source lines 213-222): walk the arguments in order,
throwing on the first whose `typeof` is not `'object'` and merging each other
one into the process-wide registry.  The registry is global state, so the
merges done before a throw persist: the result carries the final registry
together with the thrown message, if any. -/
def extendComponents {C : Type} (registry : List (String × C)) :
    List (JsArg C) → List (String × C) × Option String
  | [] => (registry, none)
  | a :: rest =>
    if typeofIsObject a then extendComponents (assignArg registry a) rest
    else (registry, some extendErr)

/-! ## The per-token parse handlers (source lines 139-167) -/

/-- A lexical token as swig hands it to the handlers: its type and its raw
matched text. -/
inductive SwigToken where
  | string (mtch : String) : SwigToken
  | var (mtch : String) : SwigToken
deriving DecidableEq

/-- A handler's return value: `true` asks swig to also run its default
processing for the token (pass it through to the expression grammar), `false`
or a bare `return` (undefined) suppresses it. -/
inductive HandlerResult where
  | passThrough : HandlerResult
  | suppress : HandlerResult
  | undef : HandlerResult
deriving DecidableEq

/-- The state the two handler closures share: the captured `componentName`
and the parser's `out` queue. -/
structure ParseState where
  componentName : Option String
  out : List String
deriving DecidableEq

/-- The state before any token: `componentName` is undeclared and nothing has
been pushed. -/
def initParseState : ParseState := ⟨none, []⟩

/-- JavaScript falsiness of the captured name (`!componentName`): undefined or
the empty string. -/
def nameFalsy : Option String → Bool
  | none => true
  | some s => s.isEmpty

/-- The regex `/(^['"]|['"]$)/g` replace of source line 144: drop one leading
and one trailing quote character. -/
def stripQuotes (s : String) : String :=
  let l := s.toList
  let l1 := match l with
    | [] => []
    | ch :: rest => if ch = '\'' ∨ ch = '"' then rest else l
  let l2 := match l1.reverse with
    | [] => []
    | ch :: rest => if ch = '\'' ∨ ch = '"' then rest.reverse else l1
  String.mk l2

/-- One handler invocation (source lines 142-164): the string handler captures
a falsy-named first token stripped of quotes, pushes it and returns undefined,
else returns true; the variable handler captures a falsy-named first token and
returns true, captures `with`/`in` keywords returning false, and returns true
otherwise. -/
def parseStep (st : ParseState) (t : SwigToken) : ParseState × HandlerResult :=
  match t with
  | .string m =>
    if nameFalsy st.componentName then
      let nm := stripQuotes m
      (⟨some nm, st.out ++ [nm]⟩, .undef)
    else (st, .passThrough)
  | .var m =>
    if nameFalsy st.componentName then (⟨some m, st.out⟩, .passThrough)
    else if m = STR_WITH ∨ m = STR_IN then
      (⟨st.componentName, st.out ++ [m]⟩, .suppress)
    else (st, .passThrough)

/-! ## Auxiliary predicate for the brace scan -/

/-- Whether the balanced-brace loop, started with counters `o`/`c`, reaches a
truthy closing-brace token that balances the counters before the stream runs
out or a falsy token stops it. -/
def balancesFrom : List String → Nat → Nat → Bool
  | [], _, _ => false
  | t :: ts, o, c =>
    if t = "" then false
    else
      let o2 := if t = STR_OBJ_OPEN then o + 1 else o
      let c2 := if t = STR_OBJ_CLOSE then c + 1 else c
      if t = STR_OBJ_CLOSE ∧ o2 = c2 then true else balancesFrom ts o2 c2

/-! ## Lemmas: decimal digits -/

theorem digitChar_isDigit {d : Nat} (hd : d < 10) :
    (Char.ofNat (48 + d)).isDigit = true := by
  interval_cases d <;> decide

theorem digitChar_toNat {d : Nat} (hd : d < 10) :
    (Char.ofNat (48 + d)).toNat = 48 + d := by
  interval_cases d <;> decide

theorem natCharsGo_append (n : Nat) :
    ∀ acc, natCharsGo n acc = natCharsGo n [] ++ acc := by
  induction n using Nat.strong_induction_on with
  | _ n ih =>
    intro acc
    by_cases h : n < 10
    · conv_lhs => rw [natCharsGo]
      conv_rhs => rw [natCharsGo]
      simp [h]
    · conv_lhs => rw [natCharsGo]
      conv_rhs => rw [natCharsGo]
      simp only [h, if_false]
      have hd : n / 10 < n := Nat.div_lt_self (by omega) (by omega)
      rw [ih _ hd (Char.ofNat (48 + n % 10) :: acc),
        ih _ hd [Char.ofNat (48 + n % 10)]]
      simp

theorem natChars_all_digit (n : Nat) :
    ∀ c ∈ natChars n, c.isDigit = true := by
  induction n using Nat.strong_induction_on with
  | _ n ih =>
    intro c hc
    unfold natChars at hc
    rw [natCharsGo] at hc
    by_cases h : n < 10
    · simp only [h, if_true, List.mem_singleton] at hc
      subst hc
      exact digitChar_isDigit (Nat.mod_lt _ (by omega))
    · simp only [h, if_false] at hc
      rw [natCharsGo_append] at hc
      rcases List.mem_append.mp hc with h1 | h1
      · exact ih (n / 10) (Nat.div_lt_self (by omega) (by omega)) c h1
      · simp only [List.mem_singleton] at h1
        subst h1
        exact digitChar_isDigit (Nat.mod_lt _ (by omega))

theorem natChars_ne_nil (n : Nat) : natChars n ≠ [] := by
  unfold natChars
  rw [natCharsGo]
  by_cases h : n < 10
  · simp [h]
  · simp only [h, if_false]
    rw [natCharsGo_append]
    simp

theorem foldl_natChars (n : Nat) :
    ∀ a, (natChars n).foldl (fun a ch => a * 10 + (ch.toNat - 48)) a =
      a * 10 ^ (natChars n).length + n := by
  induction n using Nat.strong_induction_on with
  | _ n ih =>
    intro a
    by_cases h : n < 10
    · unfold natChars
      rw [natCharsGo]
      simp only [h, if_true, List.foldl_cons, List.foldl_nil, List.length_cons,
        List.length_nil]
      rw [digitChar_toNat (Nat.mod_lt _ (by omega))]
      have hn : n % 10 = n := Nat.mod_eq_of_lt h
      rw [hn, pow_one]
      omega
    · have hd : n / 10 < n := Nat.div_lt_self (by omega) (by omega)
      have step : natChars n = natChars (n / 10) ++ [Char.ofNat (48 + n % 10)] := by
        unfold natChars
        conv_lhs => rw [natCharsGo]
        simp only [h, if_false]
        exact natCharsGo_append _ _
      rw [step, List.foldl_append, ih (n / 10) hd a]
      simp only [List.foldl_cons, List.foldl_nil, List.length_append,
        List.length_cons, List.length_nil]
      rw [digitChar_toNat (Nat.mod_lt _ (by omega))]
      have h10 : 10 ^ ((natChars (n / 10)).length + 1) =
          10 ^ (natChars (n / 10)).length * 10 := by ring
      rw [h10]
      have := Nat.div_add_mod n 10
      ring_nf
      omega

theorem digitsToNat_natChars (n : Nat) : digitsToNat (natChars n) = n := by
  unfold digitsToNat
  rw [foldl_natChars]
  simp

theorem takeWhile_append_all {p : Char → Bool} :
    ∀ (xs ys : List Char), (∀ c ∈ xs, p c = true) →
      (∀ c, ys.head? = some c → p c = false) →
      (xs ++ ys).takeWhile p = xs ∧ (xs ++ ys).dropWhile p = ys := by
  intro xs
  induction xs with
  | nil =>
    intro ys _ hys
    cases ys with
    | nil => simp
    | cons c t =>
      have := hys c rfl
      simp [List.takeWhile, List.dropWhile, this]
  | cons x xs ih =>
    intro ys hxs hys
    have hx : p x = true := hxs x (by simp)
    have := ih ys (fun c hc => hxs c (by simp [hc])) hys
    simp [List.takeWhile, List.dropWhile, hx, this.1, this.2]

theorem parseNatDigits_natChars (n : Nat) (rest : List Char)
    (hrest : ∀ c, rest.head? = some c → c.isDigit = false) :
    parseNatDigits (natChars n ++ rest) = some (n, rest) := by
  unfold parseNatDigits
  obtain ⟨h1, h2⟩ :=
    takeWhile_append_all (natChars n) rest (natChars_all_digit n) hrest
  rw [h1, h2]
  simp [natChars_ne_nil n, List.isEmpty_iff, digitsToNat_natChars]

/-! ## Lemmas: string bodies and head characters -/

theorem parseStrRest_escape (s : List Char) :
    ∀ rest, parseStrRest (jsonEscapeStr s ++ '"' :: rest) = some (s, rest) := by
  induction s with
  | nil =>
    intro rest
    rw [jsonEscapeStr, List.nil_append, parseStrRest.eq_def]
    simp
  | cons ch cs ih =>
    intro rest
    by_cases h1 : ch = '"'
    · subst h1
      have hsplit : jsonEscapeStr ('"' :: cs) ++ '"' :: rest
          = '\\' :: '"' :: (jsonEscapeStr cs ++ '"' :: rest) := by
        simp [jsonEscapeStr]
      rw [hsplit, parseStrRest.eq_def]
      simp [decodeEscChar, ih]
    · by_cases h2 : ch = '\\'
      · subst h2
        have hsplit : jsonEscapeStr ('\\' :: cs) ++ '"' :: rest
            = '\\' :: '\\' :: (jsonEscapeStr cs ++ '"' :: rest) := by
          simp [jsonEscapeStr]
        rw [hsplit, parseStrRest.eq_def]
        simp [decodeEscChar, ih]
      · have hsplit : jsonEscapeStr (ch :: cs) ++ '"' :: rest
            = ch :: (jsonEscapeStr cs ++ '"' :: rest) := by
          simp [jsonEscapeStr, h1, h2]
        rw [hsplit, parseStrRest.eq_def]
        simp [h1, h2, ih]

theorem isDigit_guards {c : Char} (h : c.isDigit = true) :
    c ≠ '"' ∧ c ≠ '[' ∧ c ≠ '{' ∧ c ≠ '-' ∧ c ≠ ']' ∧ c ≠ '}' := by
  refine ⟨?_, ?_, ?_, ?_, ?_, ?_⟩ <;>
    (rintro rfl; exact absurd h (by decide))

theorem natChars_cons (n : Nat) :
    ∃ c cs, natChars n = c :: cs ∧ c.isDigit = true := by
  cases hc : natChars n with
  | nil => exact absurd hc (natChars_ne_nil n)
  | cons c cs =>
    exact ⟨c, cs, rfl, natChars_all_digit n c (by rw [hc]; simp)⟩

theorem stringify_head (p : Json) :
    ∃ c cs, stringifyJson p = c :: cs ∧ c ≠ ']' ∧ c ≠ '}' := by
  cases p with
  | null => exact ⟨'n', _, rfl, by decide, by decide⟩
  | bool b => cases b with
    | true => exact ⟨'t', _, rfl, by decide, by decide⟩
    | false => exact ⟨'f', _, rfl, by decide, by decide⟩
  | num n =>
    by_cases hn : n < 0
    · exact ⟨'-', natChars n.natAbs,
        by simp [stringifyJson, numChars, hn], by decide, by decide⟩
    · obtain ⟨c, cs, hc, hcd⟩ := natChars_cons n.toNat
      refine ⟨c, cs, by simp [stringifyJson, numChars, hn, hc], ?_, ?_⟩
      · exact (isDigit_guards hcd).2.2.2.2.1
      · exact (isDigit_guards hcd).2.2.2.2.2
  | str s => exact ⟨'"', _, rfl, by decide, by decide⟩
  | arr xs => exact ⟨'[', _, rfl, by decide, by decide⟩
  | obj ms => exact ⟨'{', _, rfl, by decide, by decide⟩

/-! ## The parse/stringify roundtrip -/

set_option maxHeartbeats 1000000 in
mutual
theorem parseVal_stringify : ∀ (p : Json) (f : Nat) (rest : List Char),
    szV p ≤ f → (∀ c, rest.head? = some c → c.isDigit = false) →
    parseVal f (stringifyJson p ++ rest) = some (p, rest)
  | .null, f, rest, hf, hd => by
    cases f with
    | zero => simp [szV] at hf
    | succ f =>
      rw [stringifyJson, List.cons_append]
      simp [parseVal, parseNullAfterN]
  | .bool true, f, rest, hf, hd => by
    cases f with
    | zero => simp [szV] at hf
    | succ f =>
      rw [stringifyJson, List.cons_append]
      simp [parseVal, parseTrueAfterT]
  | .bool false, f, rest, hf, hd => by
    cases f with
    | zero => simp [szV] at hf
    | succ f =>
      rw [stringifyJson, List.cons_append]
      simp [parseVal, parseFalseAfterF]
  | .num n, f, rest, hf, hd => by
    cases f with
    | zero => simp [szV] at hf
    | succ f =>
      by_cases hn : n < 0
      · have hstr : stringifyJson (.num n) = '-' :: natChars n.natAbs := by
          rw [stringifyJson, numChars]
          simp [hn]
        rw [hstr, List.cons_append]
        have hpd := parseNatDigits_natChars n.natAbs rest hd
        simp [parseVal, parseNumNeg, hpd, abs_of_neg hn]
      · have hstr : stringifyJson (.num n) = natChars n.toNat := by
          rw [stringifyJson, numChars]
          simp [hn]
        obtain ⟨c, cs, hcc, hcd⟩ := natChars_cons n.toNat
        obtain ⟨g1, g2, g3, g4, g5, g6⟩ := isDigit_guards hcd
        have hin : stringifyJson (.num n) ++ rest = c :: (cs ++ rest) := by
          rw [hstr, hcc]
          simp
        have hpd : parseNatDigits (c :: (cs ++ rest)) = some (n.toNat, rest) := by
          rw [show c :: (cs ++ rest) = natChars n.toNat ++ rest by rw [hcc]; simp]
          exact parseNatDigits_natChars n.toNat rest hd
        rw [hin]
        simp [parseVal, g1, g2, g3, g4, hcd, parseNumPos, hpd]
        omega
  | .str s, f, rest, hf, hd => by
    cases f with
    | zero => simp [szV] at hf
    | succ f =>
      have hin : stringifyJson (.str s) ++ rest
          = '"' :: (jsonEscapeStr s ++ '"' :: rest) := by
        rw [stringifyJson]
        simp
      rw [hin]
      simp [parseVal, parseStrAsJson, parseStrRest_escape s rest]
  | .arr .nil, f, rest, hf, hd => by
    cases f with
    | zero => simp [szV] at hf
    | succ f =>
      have hin : stringifyJson (.arr .nil) ++ rest = '[' :: ']' :: rest := by
        rw [stringifyJson, stringifyArr]
        simp
      rw [hin]
      simp [parseVal, parseArrAfterOpen]
  | .arr (.cons v tl), f, rest, hf, hd => by
    cases f with
    | zero => simp [szV, szA] at hf
    | succ f =>
      have hf2 : szA (.cons v tl) ≤ f := by
        simp only [szV] at hf
        omega
      obtain ⟨T, hT⟩ : ∃ T, stringifyArr (.cons v tl) = stringifyJson v ++ T := by
        cases tl with
        | nil => exact ⟨[], by rw [stringifyArr]; simp⟩
        | cons w tl2 => exact ⟨',' :: stringifyArr (.cons w tl2), by rw [stringifyArr]⟩
      obtain ⟨c, cs, hc, hne1, hne2⟩ := stringify_head v
      have hin : stringifyJson (.arr (.cons v tl)) ++ rest
          = '[' :: (stringifyArr (.cons v tl) ++ ']' :: rest) := by
        rw [stringifyJson]
        simp
      have hhd : (stringifyArr (.cons v tl) ++ ']' :: rest).head? = some c := by
        rw [hT, hc]
        simp
      rw [hin]
      simp only [parseVal, Char.reduceEq, reduceIte]
      rw [parseArrAfterOpen, hhd]
      rw [parseArrItems_stringify v tl f rest hf2, jsonOfArrItems]
      simp [hne1]
  | .obj .nil, f, rest, hf, hd => by
    cases f with
    | zero => simp [szV] at hf
    | succ f =>
      have hin : stringifyJson (.obj .nil) ++ rest = '{' :: '}' :: rest := by
        rw [stringifyJson, stringifyObj]
        simp
      rw [hin]
      simp [parseVal, parseObjAfterOpen]
  | .obj (.cons k v tl), f, rest, hf, hd => by
    cases f with
    | zero => simp [szV, szO] at hf
    | succ f =>
      have hf2 : szO (.cons k v tl) ≤ f := by
        simp only [szV] at hf
        omega
      obtain ⟨T, hT⟩ : ∃ T, stringifyObj (.cons k v tl)
          = '"' :: (jsonEscapeStr k ++ '"' :: ':' :: (stringifyJson v ++ T)) := by
        cases tl with
        | nil => exact ⟨[], by rw [stringifyObj]; simp⟩
        | cons k2 v2 tl2 =>
          exact ⟨',' :: stringifyObj (.cons k2 v2 tl2), by rw [stringifyObj]; simp⟩
      have hin : stringifyJson (.obj (.cons k v tl)) ++ rest
          = '{' :: (stringifyObj (.cons k v tl) ++ '}' :: rest) := by
        rw [stringifyJson]
        simp
      have hhd : (stringifyObj (.cons k v tl) ++ '}' :: rest).head? = some '"' := by
        rw [hT]
        simp
      rw [hin]
      simp only [parseVal, Char.reduceEq, reduceIte]
      rw [parseObjAfterOpen, hhd]
      rw [parseObjItems_stringify k v tl f rest hf2, jsonOfObjItems]
      simp
  termination_by p _ _ _ _ => sizeOf p

theorem parseArrItems_stringify : ∀ (v : Json) (tl : JsonArr) (f : Nat)
    (rest : List Char), szA (.cons v tl) ≤ f →
    parseArrItems f (stringifyArr (.cons v tl) ++ ']' :: rest)
      = some (.cons v tl, rest)
  | v, .nil, f, rest, hf => by
    cases f with
    | zero => simp [szA] at hf
    | succ f =>
      have hv : szV v ≤ f := by
        simp only [szA] at hf
        omega
      have hin : stringifyArr (.cons v .nil) ++ ']' :: rest
          = stringifyJson v ++ ']' :: rest := by
        rw [stringifyArr]
      rw [hin]
      simp only [parseArrItems]
      rw [parseVal_stringify v f (']' :: rest) hv
        (by intro c hc; simp at hc; subst hc; decide)]
      simp [parseArrTail]
  | v, .cons w tl, f, rest, hf => by
    cases f with
    | zero => simp [szA] at hf
    | succ f =>
      have hv : szV v ≤ f := by
        simp only [szA] at hf
        omega
      have hA : szA (.cons w tl) ≤ f := by
        simp only [szA] at hf ⊢
        omega
      have hin : stringifyArr (.cons v (.cons w tl)) ++ ']' :: rest
          = stringifyJson v ++ ',' :: (stringifyArr (.cons w tl) ++ ']' :: rest) := by
        rw [stringifyArr]
        simp
      rw [hin]
      simp only [parseArrItems]
      rw [parseVal_stringify v f (',' :: (stringifyArr (.cons w tl) ++ ']' :: rest)) hv
        (by intro c hc; simp at hc; subst hc; decide)]
      simp [parseArrTail]
      rw [parseArrItems_stringify w tl f rest hA]
      simp [consArrItem]
  termination_by v tl _ _ _ => sizeOf (JsonArr.cons v tl)

theorem parseObjItems_stringify : ∀ (k : List Char) (v : Json) (tl : JsonObj)
    (f : Nat) (rest : List Char), szO (.cons k v tl) ≤ f →
    parseObjItems f (stringifyObj (.cons k v tl) ++ '}' :: rest)
      = some (.cons k v tl, rest)
  | k, v, .nil, f, rest, hf => by
    cases f with
    | zero => simp [szO] at hf
    | succ f =>
      have hv : szV v ≤ f := by
        simp only [szO] at hf
        omega
      have hin : stringifyObj (.cons k v .nil) ++ '}' :: rest
          = '"' :: (jsonEscapeStr k ++ '"' :: (':' :: (stringifyJson v ++ '}' :: rest))) := by
        rw [stringifyObj]
        simp
      rw [hin]
      simp only [parseObjItems]
      rw [parseStrRest_escape k (':' :: (stringifyJson v ++ '}' :: rest))]
      simp [parseObjKey]
      rw [parseVal_stringify v f ('}' :: rest) hv
        (by intro c hc; simp at hc; subst hc; decide)]
      simp [parseObjValue]
  | k, v, .cons k2 v2 tl, f, rest, hf => by
    cases f with
    | zero => simp [szO] at hf
    | succ f =>
      have hv : szV v ≤ f := by
        simp only [szO] at hf
        omega
      have hO : szO (.cons k2 v2 tl) ≤ f := by
        simp only [szO] at hf ⊢
        omega
      have hin : stringifyObj (.cons k v (.cons k2 v2 tl)) ++ '}' :: rest
          = '"' :: (jsonEscapeStr k ++ '"' :: (':' :: (stringifyJson v
              ++ ',' :: (stringifyObj (.cons k2 v2 tl) ++ '}' :: rest)))) := by
        rw [stringifyObj]
        simp
      rw [hin]
      simp only [parseObjItems]
      rw [parseStrRest_escape k
        (':' :: (stringifyJson v ++ ',' :: (stringifyObj (.cons k2 v2 tl) ++ '}' :: rest)))]
      simp [parseObjKey]
      rw [parseVal_stringify v f
        (',' :: (stringifyObj (.cons k2 v2 tl) ++ '}' :: rest)) hv
        (by intro c hc; simp at hc; subst hc; decide)]
      simp [parseObjValue]
      rw [parseObjItems_stringify k2 v2 tl f rest hO]
      simp [consObjItem]
  termination_by k v tl _ _ _ => sizeOf (JsonObj.cons k v tl)
end

mutual
theorem szV_le_length : ∀ p : Json, szV p ≤ (stringifyJson p).length
  | .null => by simp [szV, stringifyJson]
  | .bool true => by simp [szV, stringifyJson]
  | .bool false => by simp [szV, stringifyJson]
  | .num n => by
    simp only [szV, stringifyJson, numChars]
    by_cases hn : n < 0
    · simp [hn]
    · simp only [hn, if_false]
      exact Nat.one_le_iff_ne_zero.mpr
        (by simp [List.length_eq_zero, natChars_ne_nil])
  | .str s => by
    simp [szV, stringifyJson]
  | .arr xs => by
    have := szA_le_length xs
    simp only [szV, stringifyJson]
    simp
    omega
  | .obj ms => by
    have := szO_le_length ms
    simp only [szV, stringifyJson]
    simp
    omega
  termination_by p => sizeOf p

theorem szA_le_length : ∀ xs : JsonArr, szA xs ≤ (stringifyArr xs).length + 1
  | .nil => by simp [szA]
  | .cons v .nil => by
    have := szV_le_length v
    simp only [szA, stringifyArr]
    omega
  | .cons v (.cons w tl) => by
    have h1 := szV_le_length v
    have h2 := szA_le_length (.cons w tl)
    simp only [szA] at h2 ⊢
    simp only [stringifyArr, List.length_append, List.length_cons]
    omega
  termination_by xs => sizeOf xs

theorem szO_le_length : ∀ ms : JsonObj, szO ms ≤ (stringifyObj ms).length + 1
  | .nil => by simp [szO]
  | .cons k v .nil => by
    have := szV_le_length v
    simp only [szO, stringifyObj]
    simp
    omega
  | .cons k v (.cons k2 v2 tl) => by
    have h1 := szV_le_length v
    have h2 := szO_le_length (.cons k2 v2 tl)
    simp only [szO] at h2 ⊢
    simp only [stringifyObj, List.length_append, List.length_cons]
    omega
  termination_by ms => sizeOf ms
end

/-- JSON decoding inverts `JSON.stringify` on the modelled fragment. -/
theorem jsonParse_stringify (p : Json) : jsonParse (stringifyJson p) = some p := by
  unfold jsonParse
  have h1 : szV p ≤ (stringifyJson p).length + 1 :=
    le_trans (szV_le_length p) (by omega)
  have h2 := parseVal_stringify p ((stringifyJson p).length + 1) [] h1
    (by intro c hc; simp at hc)
  rw [List.append_nil] at h2
  rw [h2]

/-! ## Lemmas: the HTML-entity quote escape and its reversal -/

theorem isPrefixOf_append_self : ∀ (l x : List Char), l.isPrefixOf (l ++ x) = true := by
  intro l x
  induction l with
  | nil => simp [List.isPrefixOf]
  | cons a as ih => simp [List.isPrefixOf, ih]

theorem isPrefixOf_nil_eq {l : List Char} (h : l.isPrefixOf [] = true) : l = [] := by
  cases l with
  | nil => rfl
  | cons a as => simp [List.isPrefixOf] at h

theorem isPrefixOf_escape_of_clean :
    ∀ (l : List Char), ('&' ∉ l) → ('"' ∉ l) →
      ∀ cs, l.isPrefixOf (quotEscape cs) = true → l.isPrefixOf cs = true := by
  intro l
  induction l with
  | nil => intro _ _ cs _; simp [List.isPrefixOf]
  | cons a as ih =>
    intro hamp hquot cs hpre
    cases cs with
    | nil =>
      rw [quotEscape] at hpre
      simp [List.isPrefixOf] at hpre
    | cons b bs =>
      by_cases hb : b = '"'
      · subst hb
        have : quotEscape ('"' :: bs) = '&' :: ('q' :: 'u' :: 'o' :: 't' :: ';' :: quotEscape bs) := by
          rw [quotEscape]
          simp [quotEnt]
        rw [this] at hpre
        simp only [List.isPrefixOf, Bool.and_eq_true, beq_iff_eq] at hpre
        exact absurd hpre.1 (by intro h; exact hamp (by simp [h]))
      · have : quotEscape (b :: bs) = b :: quotEscape bs := by
          rw [quotEscape]
          simp [hb]
        rw [this] at hpre
        simp only [List.isPrefixOf, Bool.and_eq_true, beq_iff_eq] at hpre ⊢
        refine ⟨hpre.1, ih (by simp at hamp; exact hamp.2)
          (by simp at hquot; exact hquot.2) bs hpre.2⟩

theorem quotUnescape_quotEscape :
    ∀ s : List Char, hasQuotEnt s = false → quotUnescape (quotEscape s) = s := by
  intro s
  induction s with
  | nil => intro _; rw [quotEscape, quotUnescape]
  | cons ch cs ih =>
    intro h
    rw [hasQuotEnt, Bool.or_eq_false_iff] at h
    obtain ⟨h1, h2⟩ := h
    by_cases hch : ch = '"'
    · subst hch
      have hesc : quotEscape ('"' :: cs)
          = '&' :: ('q' :: 'u' :: 'o' :: 't' :: ';' :: quotEscape cs) := by
        rw [quotEscape]
        simp [quotEnt]
      rw [hesc, quotUnescape]
      have hpref : quotEnt.isPrefixOf
          ('&' :: ('q' :: 'u' :: 'o' :: 't' :: ';' :: quotEscape cs)) = true := by
        exact isPrefixOf_append_self quotEnt (quotEscape cs)
      rw [if_pos hpref]
      simp [ih h2]
    · have hesc : quotEscape (ch :: cs) = ch :: quotEscape cs := by
        rw [quotEscape]
        simp [hch]
      have hnp : quotEnt.isPrefixOf (ch :: quotEscape cs) = false := by
        by_contra hcon
        rw [Bool.not_eq_false] at hcon
        have hcon2 := hcon
        rw [show quotEnt = '&' :: ['q', 'u', 'o', 't', ';'] from rfl] at hcon2
        simp only [List.isPrefixOf, Bool.and_eq_true, beq_iff_eq] at hcon2
        obtain ⟨hch2, hrest⟩ := hcon2
        subst hch2
        have htail : (['q', 'u', 'o', 't', ';'] : List Char).isPrefixOf cs = true :=
          isPrefixOf_escape_of_clean _ (by decide) (by decide) cs hrest
        have hfull : quotEnt.isPrefixOf ('&' :: cs) = true := by
          rw [show quotEnt = '&' :: ['q', 'u', 'o', 't', ';'] from rfl]
          simp [List.isPrefixOf, htail]
        rw [hfull] at h1
        simp at h1
      rw [hesc, quotUnescape, if_neg (by simp [hnp]), ih h2]

/-- The escaped serialization contains no raw double quote: the attribute
value is exactly the escaped text. -/
theorem quotEscape_no_quote : ∀ s : List Char, '"' ∉ quotEscape s := by
  intro s
  induction s with
  | nil => simp [quotEscape]
  | cons ch cs ih =>
    rw [quotEscape]
    by_cases hch : ch = '"'
    · simp [hch, quotEnt, ih]
    · simp [hch, ih]
      intro hcon
      exact hch hcon.symm

/-! ## Lemmas: containment of attribute text -/

theorem listIncludes_of_isPrefixOf {pat l : List Char}
    (h : pat.isPrefixOf l = true) : listIncludes pat l = true := by
  cases l with
  | nil =>
    rw [isPrefixOf_nil_eq h]
    rfl
  | cons c cs => simp [listIncludes, h]

theorem listIncludes_append_middle (pre pat suf : List Char) :
    listIncludes pat (pre ++ pat ++ suf) = true := by
  induction pre with
  | nil => exact listIncludes_of_isPrefixOf (isPrefixOf_append_self pat suf)
  | cons a pre ih =>
    have hshape : (a :: pre) ++ pat ++ suf = a :: (pre ++ pat ++ suf) := by simp
    rw [hshape, listIncludes, ih]
    simp

/-! ## Lemmas: the emitted attribute loop and the first-quote replace -/

theorem replaceFirstQuote_no_quote :
    ∀ v : List Char, '"' ∉ v → replaceFirstQuote v = v := by
  intro v
  induction v with
  | nil => intro _; rfl
  | cons ch cs ih =>
    intro h
    have hch : ch ≠ '"' := by
      intro hcon
      exact h (by simp [hcon])
    rw [replaceFirstQuote, if_neg hch, ih (by simp at h; exact h.2)]

theorem replaceFirstQuote_first (b : List Char) :
    ∀ a : List Char, '"' ∉ a →
      replaceFirstQuote (a ++ '"' :: b) = a ++ quotEnt ++ b := by
  intro a
  induction a with
  | nil => intro _; simp [replaceFirstQuote]
  | cons ch cs ih =>
    intro ha
    have hch : ch ≠ '"' := by
      intro hcon
      exact ha (by simp [hcon])
    rw [List.cons_append, replaceFirstQuote, if_neg hch,
      ih (by simp at ha; exact ha.2)]
    simp

theorem attrLoop_eq_filter (container : List (List Char × List Char)) :
    ∀ start, attrLoop container start
      = start ++ (container.filter fun kv => kv.1 ≠ "tag".toList).foldr
          (fun kv acc => attrOf kv ++ acc) [] := by
  induction container with
  | nil => intro start; simp [attrLoop]
  | cons kv rest ih =>
    intro start
    simp only [attrLoop, List.foldl_cons] at ih ⊢
    by_cases hkv : kv.1 = "tag".toList
    · have hkv2 : kv.1 = (['t', 'a', 'g'] : List Char) := by simpa using hkv
      rw [if_neg (by simp [hkv]), ih start]
      congr 1
      rw [List.filter_cons]
      simp [hkv2]
    · have hkv2 : kv.1 ≠ (['t', 'a', 'g'] : List Char) := by simpa using hkv
      rw [if_pos hkv, ih (start ++ attrOf kv), List.filter_cons]
      simp [hkv2, List.append_assoc]

/-! ## Lemmas: property lookup after assignment -/

theorem getProp_map_set {K C : Type} [DecidableEq K] (k : K) (v : C) :
    ∀ m : List (K × C), m.any (fun kv => kv.1 = k) = true →
      getProp (m.map fun kv => if kv.1 = k then (k, v) else kv) k = some v := by
  intro m
  induction m with
  | nil => intro h; simp at h
  | cons kv rest ih =>
    intro h
    by_cases hk : kv.1 = k
    · rw [List.map_cons, if_pos hk, getProp, if_pos rfl]
    · rw [List.map_cons, if_neg hk, getProp, if_neg hk]
      apply ih
      simp [List.any_cons, hk] at h
      simpa using h

theorem getProp_append_new {K C : Type} [DecidableEq K] (k : K) (v : C) :
    ∀ m : List (K × C), m.any (fun kv => kv.1 = k) = false →
      getProp (m ++ [(k, v)]) k = some v := by
  intro m
  induction m with
  | nil => intro _; simp [getProp]
  | cons kv rest ih =>
    intro h
    simp only [List.any_cons, Bool.or_eq_false_iff] at h
    rw [List.cons_append, getProp, if_neg (by simpa using h.1)]
    exact ih (by simpa using h.2)

theorem getProp_setKey_same {K C : Type} [DecidableEq K]
    (m : List (K × C)) (k : K) (v : C) : getProp (setKey m k v) k = some v := by
  unfold setKey
  by_cases hex : m.any (fun kv => kv.1 = k) = true
  · rw [if_pos hex]
    exact getProp_map_set k v m hex
  · rw [if_neg hex]
    exact getProp_append_new k v m (by
      rw [Bool.not_eq_true] at hex
      exact hex)

theorem getProp_setKey_other {K C : Type} [DecidableEq K]
    (m : List (K × C)) (k k' : K) (v : C) (hkk : k' ≠ k) :
    getProp (setKey m k v) k' = getProp m k' := by
  unfold setKey
  by_cases hex : m.any (fun kv => kv.1 = k) = true
  · rw [if_pos hex]
    clear hex
    induction m with
    | nil => rfl
    | cons kv rest ih =>
      by_cases hk : kv.1 = k
      · rw [List.map_cons, if_pos hk, getProp, getProp,
          if_neg (by intro hcon; exact hkk hcon.symm),
          if_neg (by rw [hk]; intro hcon; exact hkk hcon.symm)]
        exact ih
      · rw [List.map_cons, if_neg hk, getProp, getProp]
        by_cases hv : kv.1 = k'
        · rw [if_pos hv, if_pos hv]
        · rw [if_neg hv, if_neg hv]
          exact ih
  · rw [if_neg hex]
    clear hex
    induction m with
    | nil =>
      rw [List.nil_append, getProp, getProp,
        if_neg (by intro hcon; exact hkk hcon.symm)]
      rfl
    | cons kv rest ih =>
      rw [List.cons_append, getProp, getProp]
      by_cases hv : kv.1 = k'
      · rw [if_pos hv, if_pos hv]
      · rw [if_neg hv, if_neg hv]
        exact ih

theorem getProp_append_last {K C : Type} [DecidableEq K]
    (kv : K × C) (k : K) :
    ∀ l : List (K × C), getProp (l ++ [kv]) k
      = match getProp l k with
        | some v => some v
        | none => if kv.1 = k then some kv.2 else none := by
  intro l
  induction l with
  | nil => simp [getProp]
  | cons a l ih =>
    rw [List.cons_append, getProp, getProp]
    by_cases ha : a.1 = k
    · rw [if_pos ha, if_pos ha]
    · rw [if_neg ha, if_neg ha]
      exact ih

theorem lastProp_cons {K C : Type} [DecidableEq K]
    (kv : K × C) (s : List (K × C)) (k : K) :
    lastProp (kv :: s) k
      = match lastProp s k with
        | some v => some v
        | none => if kv.1 = k then some kv.2 else none := by
  unfold lastProp
  rw [List.reverse_cons, getProp_append_last]

theorem getProp_jsAssign {K C : Type} [DecidableEq K] :
    ∀ (s t : List (K × C)) (k : K), getProp (jsAssign t s) k
      = match lastProp s k with
        | some v => some v
        | none => getProp t k := by
  intro s
  induction s with
  | nil =>
    intro t k
    simp [jsAssign, lastProp, getProp]
  | cons kv s ih =>
    intro t k
    simp only [jsAssign, List.foldl_cons] at ih ⊢
    rw [ih (setKey t kv.1 kv.2) k, lastProp_cons]
    cases hl : lastProp s k with
    | some v => rfl
    | none =>
      simp only
      by_cases hk : kv.1 = k
      · rw [if_pos hk, ← hk, getProp_setKey_same]
      · rw [if_neg hk, getProp_setKey_other t kv.1 k kv.2
          (by intro hcon; exact hk hcon.symm)]

/-! ## Lemmas: the balanced-brace scan on exhaustion -/

theorem compileScan_exhausts : ∀ (ts : List String) (o c : Nat) (acc : String)
    (container : Option String), "" ∉ ts → balancesFrom ts o c = false →
    compileScan ts o c acc container = .ok (some STR_OBJ_OPEN, container) := by
  intro ts
  induction ts with
  | nil => intro o c acc container _ _; rfl
  | cons t ts ih =>
    intro o c acc container hne hbal
    have ht : t ≠ "" := by
      intro hcon
      exact hne (by simp [hcon])
    have hne2 : "" ∉ ts := fun hcon => hne (by simp [hcon])
    rw [balancesFrom] at hbal
    rw [if_neg ht] at hbal
    rw [compileScan, if_neg ht]
    simp only []
    by_cases hstop : t = STR_OBJ_CLOSE
      ∧ (if t = STR_OBJ_OPEN then o + 1 else o) = (if t = STR_OBJ_CLOSE then c + 1 else c)
    · exact absurd hstop (by
        intro hcon
        rw [if_pos hcon] at hbal
        revert hbal
        simp)
    · rw [if_neg hstop]
      rw [if_neg hstop] at hbal
      exact ih _ _ _ container hne2 hbal

/-! ## Claim theorems -/

/-- Claim C2 (confirmed): after `with` and an opening-brace token, the
balanced-brace reconstruction concatenates every consumed token and stops only
at the closing brace that balances the counters: on the token stream
`{ a : 1 , b : { c : 2 } }` the props expression source is exactly
`{a:1,b:{c:2}}`, not a prefix cut at the first inner closing brace, and the
emitted code splices exactly that expression. -/
theorem c2_balanced_brace_reconstruction :
    compileParseArgs [STR_WITH, STR_OBJ_OPEN, "a", ":", "1", ",", "b", ":",
        STR_OBJ_OPEN, "c", ":", "2", STR_OBJ_CLOSE, STR_OBJ_CLOSE] none none
      = .ok (some "\x7ba:1,b:\x7bc:2\x7d\x7d", none)
    ∧ compile "compiler" ["Name", STR_WITH, STR_OBJ_OPEN, "a", ":", "1", ",",
        "b", ":", STR_OBJ_OPEN, "c", ":", "2", STR_OBJ_CLOSE, STR_OBJ_CLOSE]
        "content" "parents" ⟨none⟩
      = .ok (emitJs (some "Name") (some "\x7ba:1,b:\x7bc:2\x7d\x7d") none) :=
  ⟨rfl, rfl⟩

/-- Claim C3 (counterexample): the variable-token handler, on the first token
of a tag invocation, captures the component name but returns `true` — it
signals pass-through to the host engine's expression grammar, contradicting
the claim that the first token is never passed through. -/
theorem c3_counterexample :
    (parseStep initParseState (SwigToken.var "props")).2
      = HandlerResult.passThrough
    ∧ (parseStep initParseState (SwigToken.var "props")).1.componentName
      = some "props" :=
  ⟨rfl, rfl⟩

/-- Claim C3 (amended): the first token is always captured as the component
name, with surrounding quotes stripped for a string literal; a string-literal
first token is not passed through (the handler pushes the stripped name and
returns undefined), but a bare-identifier first token is passed through (the
handler returns true). -/
theorem c3_first_token (m : String) :
    parseStep initParseState (SwigToken.string m)
      = (⟨some (stripQuotes m), [stripQuotes m]⟩, HandlerResult.undef)
    ∧ parseStep initParseState (SwigToken.var m)
      = (⟨some m, []⟩, HandlerResult.passThrough) :=
  ⟨rfl, rfl⟩

/-- Claim C4 (counterexample): an empty-string token dequeued at the top of
the argument loop is falsy, so the loop exits without throwing: `compile`
succeeds even though the dequeued token is neither `with` nor `in`. -/
theorem c4_counterexample :
    compile "compiler" ["Name", ""] "content" "parents" ⟨none⟩
      = .ok (emitJs (some "Name") none none) :=
  rfl

/-- Claim C4 (amended): every nonempty (truthy) token dequeued at the top
level of the argument loop that is neither `with` nor `in` makes `compile`
throw the error naming the offending token; an empty-string token instead
ends the loop silently. -/
theorem c4_unexpected_token_throws (t : String) (rest : List String)
    (props container : Option String)
    (ht : t ≠ "") (hw : t ≠ STR_WITH) (hi : t ≠ STR_IN) :
    compileParseArgs (t :: rest) props container
      = .error ("Unexpected argument \"" ++ t ++ "\" in react tag.")
    ∧ ∀ (compiler content parents nm : String) (o : CompileOptions),
        compile compiler (nm :: t :: rest) content parents o
          = .error ("Unexpected argument \"" ++ t ++ "\" in react tag.") := by
  have hgen : ∀ (props container : Option String),
      compileParseArgs (t :: rest) props container
        = .error ("Unexpected argument \"" ++ t ++ "\" in react tag.") := by
    intro props container
    conv_lhs => rw [compileParseArgs.eq_def]
    simp [ht, hw, hi]
  refine ⟨hgen props container, ?_⟩
  intro compiler content parents nm o
  unfold compile
  rw [show (nm :: t :: rest).tail = t :: rest from rfl, hgen none none]

/-- Witness for the amended claim C4 at the concrete token `bogus`. -/
theorem c4_witness :
    ("bogus" : String) ≠ "" ∧ ("bogus" : String) ≠ STR_WITH
    ∧ ("bogus" : String) ≠ STR_IN
    ∧ (compileParseArgs ["bogus"] none none
        = .error ("Unexpected argument \"" ++ "bogus" ++ "\" in react tag.")
      ∧ ∀ (compiler content parents nm : String) (o : CompileOptions),
          compile compiler (nm :: "bogus" :: []) content parents o
            = .error ("Unexpected argument \"" ++ "bogus" ++ "\" in react tag.")) :=
  ⟨by decide, by decide, by decide,
    c4_unexpected_token_throws "bogus" [] none none
      (by decide) (by decide) (by decide)⟩

/-- Claim C8 (confirmed): the `reactComponentRoot` option is read into
`componentRoot` and never used, so the code string `compile` returns is
identical for any two values of the option, whatever the compiler, argument,
content and parents inputs are. -/
theorem c8_componentRoot_noninterference
    (compiler : String) (args : List String) (content parents : String)
    (r1 r2 : Option String) :
    compile compiler args content parents ⟨r1⟩
      = compile compiler args content parents ⟨r2⟩ :=
  rfl

/-- Claim C9 (counterexample): when the inner loop dequeues an empty-string
token before the braces balance, the loop stops there but the outer loop
resumes on the remaining tokens, so `compile` can still raise an error —
contradicting the claim that compile raises no error in that case. -/
theorem c9_counterexample :
    compile "compiler" ["n", STR_WITH, STR_OBJ_OPEN, "", "x"]
        "content" "parents" ⟨none⟩
      = .error ("Unexpected argument \"" ++ "x" ++ "\" in react tag.") :=
  rfl

/-- Claim C9 (amended): if, after `with` and an opening-brace token, the
argument stream is exhausted before the brace counters balance (no empty
token intervening), `compile` raises no error: the inner loop consumes every
remaining argument, the accumulated string is discarded, and the props
expression source remains the single token `{`.  (If an empty-string token is
dequeued first, the inner loop stops there and the outer loop resumes on the
remaining tokens.) -/
theorem c9_exhaustion_keeps_open_brace (ts : List String)
    (hne : "" ∉ ts) (hbal : balancesFrom ts 1 0 = false) :
    compileParseArgs (STR_WITH :: STR_OBJ_OPEN :: ts) none none
      = .ok (some STR_OBJ_OPEN, none) := by
  rw [compileParseArgs, if_neg (by decide), if_pos rfl, if_pos rfl]
  exact compileScan_exhausts ts 1 0 STR_OBJ_OPEN none hne hbal

/-- Witness for the amended claim C9 at a concrete never-balancing stream. -/
theorem c9_witness :
    ("" : String) ∉ ["a", ":", "1"]
    ∧ balancesFrom ["a", ":", "1"] 1 0 = false
    ∧ compileParseArgs (STR_WITH :: STR_OBJ_OPEN :: ["a", ":", "1"]) none none
      = .ok (some STR_OBJ_OPEN, none) :=
  ⟨by decide, rfl,
    c9_exhaustion_keeps_open_brace ["a", ":", "1"] (by decide) rfl⟩

/-- Claim C7 (confirmed): for a component name with no own entry in the
registry, the render bridge does not throw: it returns no markup (the
implicit `undefined`) and prints a diagnostic containing the missing name
and how to register it, and the emitted render code still produces the
container start tag with its attributes and the closing tag, with only the
literal text `undefined` (no component markup) between them. -/
theorem c7_missing_component {C : Type} (registry : List (List Char × C))
    (rts : C → Json → List Char) (n : List Char) (props : Json)
    (propsVal : Option Json)
    (containerVal : Option (List (List Char × List Char)))
    (hmiss : getProp registry n = none) :
    (renderReactComponentToString registry rts n props).1 = none
    ∧ (renderReactComponentToString registry rts n props).2 = some (missingMsg n)
    ∧ listIncludes n (missingMsg n) = true
    ∧ renderTag n propsVal containerVal
        (fun nm pr => (renderReactComponentToString registry rts nm pr).1)
      = openTagOf n (jsPropsOrEmpty propsVal) (containerVal.getD containerDefault)
        ++ "undefined".toList
        ++ closeTagOf (containerVal.getD containerDefault) := by
  refine ⟨?_, ?_, ?_, ?_⟩
  · simp [renderReactComponentToString, hmiss]
  · simp [renderReactComponentToString, hmiss]
  · have hshape : missingMsg n
        = ['"'] ++ n
          ++ ("\" component does not exist in components supplied.\n      Try extending @risd/webhook-react-tag with an object that includes ".toList
            ++ n
            ++ (".\n      ie: require('@risd/webhook-react-tag').components( \x7b ".toList
              ++ n ++ " \x7d )".toList)) := by
      simp only [missingMsg, List.cons_append, List.nil_append, List.append_assoc]
    rw [hshape]
    exact listIncludes_append_middle _ _ _
  · simp [renderTag, renderReactComponentToString, hmiss, jsStrOfOpt]

/-- Witness for claim C7 at a concrete registry missing the name. -/
theorem c7_witness :
    getProp ([("Header".toList, ())] : List (List Char × Unit))
      "Missing".toList = none
    ∧ ((renderReactComponentToString [("Header".toList, ())]
          (fun _ _ => ['R']) "Missing".toList Json.null).1 = none
      ∧ (renderReactComponentToString [("Header".toList, ())]
          (fun _ _ => ['R']) "Missing".toList Json.null).2
        = some (missingMsg "Missing".toList)
      ∧ listIncludes "Missing".toList (missingMsg "Missing".toList) = true
      ∧ renderTag "Missing".toList none none
          (fun nm pr => (renderReactComponentToString [("Header".toList, ())]
            (fun _ _ => ['R']) nm pr).1)
        = openTagOf "Missing".toList (jsPropsOrEmpty none)
            ((none : Option (List (List Char × List Char))).getD containerDefault)
          ++ "undefined".toList
          ++ closeTagOf
            ((none : Option (List (List Char × List Char))).getD containerDefault)) :=
  ⟨rfl, c7_missing_component [("Header".toList, ())] (fun _ _ => ['R'])
    "Missing".toList Json.null none none rfl⟩

/-- Claim C10 (confirmed): the render bridge takes the success branch exactly
when the requested name is an own property of the registry; a name that is
only an inherited `Object.prototype` key with no own entry takes the
not-found branch, printing the diagnostic and returning `undefined`. -/
theorem c10_own_property_branch {C : Type} (registry : List (List Char × C))
    (rts : C → Json → List Char) (n : List Char) (props : Json) :
    ((renderReactComponentToString registry rts n props).1.isSome
      = (getProp registry n).isSome)
    ∧ (n ∈ objectProtoKeys → getProp registry n = none →
        renderReactComponentToString registry rts n props
          = (none, some (missingMsg n))) := by
  constructor
  · cases h : getProp registry n <;> simp [renderReactComponentToString, h]
  · intro _ h
    simp [renderReactComponentToString, h]

/-- Witness for claim C10: `toString` is an inherited `Object.prototype` key,
not an own key of a registry holding only `Header`, so the bridge takes the
diagnostic branch. -/
theorem c10_witness :
    "toString".toList ∈ objectProtoKeys
    ∧ getProp ([("Header".toList, ())] : List (List Char × Unit))
        "toString".toList = none
    ∧ renderReactComponentToString [("Header".toList, ())] (fun _ _ => ['R'])
        "toString".toList Json.null
      = (none, some (missingMsg "toString".toList)) :=
  ⟨by decide, rfl,
    (c10_own_property_branch [("Header".toList, ())] (fun _ _ => ['R'])
      "toString".toList Json.null).2 (by decide) rfl⟩

/-! ## Lemmas: the registry extension walk -/

theorem extendComponents_all_objects {C : Type} :
    ∀ (objs : List (JsArg C)) (registry : List (String × C)),
      (∀ a ∈ objs, typeofIsObject a = true) →
      extendComponents registry objs = (objs.foldl assignArg registry, none) := by
  intro objs
  induction objs with
  | nil => intro registry _; rfl
  | cons a objs ih =>
    intro registry hall
    rw [extendComponents, if_pos (hall a (by simp)),
      ih (assignArg registry a) (fun b hb => hall b (by simp [hb]))]
    simp

theorem extendComponents_stops_at_bad {C : Type} :
    ∀ (objs : List (JsArg C)) (registry : List (String × C)) (bad : JsArg C)
      (rest : List (JsArg C)),
      (∀ a ∈ objs, typeofIsObject a = true) → typeofIsObject bad = false →
      extendComponents registry (objs ++ bad :: rest)
        = (objs.foldl assignArg registry, some extendErr) := by
  intro objs
  induction objs with
  | nil =>
    intro registry bad rest _ hbad
    rw [List.nil_append, extendComponents, if_neg (by simp [hbad])]
    rfl
  | cons a objs ih =>
    intro registry bad rest hall hbad
    rw [List.cons_append, extendComponents, if_pos (hall a (by simp)),
      ih (assignArg registry a) bad rest (fun b hb => hall b (by simp [hb])) hbad]
    simp

/-- Claim C6 (counterexample): `null` is not an object, yet
`typeof null === 'object'`, so `components(null)` does not throw — it merges
nothing and returns normally, contradicting the claim that any non-object
argument throws. -/
theorem c6_counterexample :
    extendComponents ([] : List (String × Unit)) [JsArg.nul] = ([], none) :=
  rfl

/-- Claim C6 (amended): `components(...groups)` throws exactly on the first
argument whose `typeof` is not `'object'` (`null`, whose `typeof` is
`'object'`, is accepted and merges nothing); the object groups processed
before the offending argument remain merged into the registry (no rollback);
and object arguments merge shallowly, later registrations of the same key
overwriting earlier ones. -/
theorem c6_extend_typeof {C : Type} (registry : List (String × C))
    (objs : List (JsArg C)) (bad : JsArg C) (rest : List (JsArg C))
    (hobjs : ∀ a ∈ objs, typeofIsObject a = true)
    (hbad : typeofIsObject bad = false) :
    extendComponents registry objs = (objs.foldl assignArg registry, none)
    ∧ extendComponents registry (objs ++ bad :: rest)
      = (objs.foldl assignArg registry, some extendErr)
    ∧ (∀ (t s : List (String × C)) (k : String),
        getProp (jsAssign t s) k
          = match lastProp s k with
            | some v => some v
            | none => getProp t k) :=
  ⟨extendComponents_all_objects objs registry hobjs,
   extendComponents_stops_at_bad objs registry bad rest hobjs hbad,
   fun t s k => getProp_jsAssign s t k⟩

/-- Witness for the amended claim C6 at a concrete argument list. -/
theorem c6_witness :
    (∀ a ∈ ([JsArg.obj [("A", ())]] : List (JsArg Unit)),
      typeofIsObject a = true)
    ∧ typeofIsObject (JsArg.strv "x" : JsArg Unit) = false
    ∧ (extendComponents ([] : List (String × Unit)) [JsArg.obj [("A", ())]]
        = ([JsArg.obj [("A", ())]].foldl assignArg [], none)
      ∧ extendComponents ([] : List (String × Unit))
          ([JsArg.obj [("A", ())]] ++ JsArg.strv "x" :: [])
        = ([JsArg.obj [("A", ())]].foldl assignArg [], some extendErr)) := by
  have hobjs : ∀ a ∈ ([JsArg.obj [("A", ())]] : List (JsArg Unit)),
      typeofIsObject a = true := by
    intro a ha
    simp at ha
    subst ha
    rfl
  refine ⟨hobjs, rfl, ?_, ?_⟩
  · exact (c6_extend_typeof [] [JsArg.obj [("A", ())]]
      (JsArg.strv "x") [] hobjs rfl).1
  · exact (c6_extend_typeof [] [JsArg.obj [("A", ())]]
      (JsArg.strv "x") [] hobjs rfl).2.1

unseal quotUnescape parseVal parseArrItems parseObjItems parseObjKey
  parseObjValue parseArrAfterOpen parseObjAfterOpen parseArrTail in
/-- Claim C1 (counterexample): with `Header` registered and the props object
whose key `a` holds the string `&quot;`, the markup contains the
`data-react-props` attribute, but its value, after replacing every `&quot;`
back with a double quote, is not valid JSON — it decodes to nothing, in
particular not to an object deep-equal to the props: the global quote-escape
is not invertible on values that already contain `&quot;`. -/
theorem c1_counterexample :
    listIncludes
      (" data-react-props=\"".toList
        ++ propsAttr (Json.obj (.cons "a".toList (.str "&quot;".toList) .nil))
        ++ ['"', '>'])
      (renderTag "Header".toList
        (some (Json.obj (.cons "a".toList (.str "&quot;".toList) .nil))) none
        (fun _ _ => some ['R'])) = true
    ∧ jsonParse (quotUnescape
        (propsAttr (Json.obj (.cons "a".toList (.str "&quot;".toList) .nil))))
      = none :=
  ⟨rfl, rfl⟩

/-- Claim C1 (amended): for every registered component name and every
serializable props object whose JSON serialization does not already contain
the text `&quot;`, the rendered markup contains a `data-react-component`
attribute carrying the name and a `data-react-props` attribute whose value,
after replacing every `&quot;` back with a double quote, JSON-decodes to an
object deep-equal to the props. -/
theorem c1_props_attribute_roundtrip {C : Type}
    (registry : List (List Char × C)) (rts : C → Json → List Char)
    (n : List Char) (comp : C) (m : JsonObj)
    (hreg : getProp registry n = some comp)
    (hclean : hasQuotEnt (stringifyJson (Json.obj m)) = false) :
    listIncludes (" data-react-component=\"".toList ++ n ++ ['"'])
      (renderTag n (some (Json.obj m)) none
        (fun nm pr => (renderReactComponentToString registry rts nm pr).1))
      = true
    ∧ listIncludes
        (" data-react-props=\"".toList ++ propsAttr (Json.obj m) ++ ['"', '>'])
        (renderTag n (some (Json.obj m)) none
          (fun nm pr => (renderReactComponentToString registry rts nm pr).1))
      = true
    ∧ jsonParse (quotUnescape (propsAttr (Json.obj m))) = some (Json.obj m) := by
  refine ⟨?_, ?_, ?_⟩
  · have hshape : renderTag n (some (Json.obj m)) none
        (fun nm pr => (renderReactComponentToString registry rts nm pr).1)
        = attrLoop containerDefault ('<' :: tagNameOf containerDefault)
          ++ (" data-react-component=\"".toList ++ n ++ ['"'])
          ++ (" data-react-props=\"".toList ++ propsAttr (Json.obj m)
            ++ ['"', '>']
            ++ (jsStrOfOpt
                ((renderReactComponentToString registry rts n (Json.obj m)).1)
              ++ closeTagOf containerDefault)) := by
      simp [renderTag, openTagOf, jsPropsOrEmpty, jsTruthy, List.append_assoc]
    rw [hshape]
    exact listIncludes_append_middle _ _ _
  · have hshape : renderTag n (some (Json.obj m)) none
        (fun nm pr => (renderReactComponentToString registry rts nm pr).1)
        = (attrLoop containerDefault ('<' :: tagNameOf containerDefault)
            ++ (" data-react-component=\"".toList ++ n ++ ['"']))
          ++ (" data-react-props=\"".toList ++ propsAttr (Json.obj m)
            ++ ['"', '>'])
          ++ (jsStrOfOpt
              ((renderReactComponentToString registry rts n (Json.obj m)).1)
            ++ closeTagOf containerDefault) := by
      simp [renderTag, openTagOf, jsPropsOrEmpty, jsTruthy, List.append_assoc]
    rw [hshape]
    exact listIncludes_append_middle _ _ _
  · rw [propsAttr, quotUnescape_quotEscape _ hclean, jsonParse_stringify]

/-- Witness for the amended claim C1 with `Header` registered and the props
object mapping `name` to `John`. -/
theorem c1_witness :
    getProp ([("Header".toList, ())] : List (List Char × Unit))
      "Header".toList = some ()
    ∧ hasQuotEnt (stringifyJson (Json.obj
        (.cons "name".toList (.str "John".toList) .nil))) = false
    ∧ (listIncludes
        (" data-react-component=\"".toList ++ "Header".toList ++ ['"'])
        (renderTag "Header".toList
          (some (Json.obj (.cons "name".toList (.str "John".toList) .nil))) none
          (fun nm pr => (renderReactComponentToString [("Header".toList, ())]
            (fun _ _ => ['R']) nm pr).1)) = true
      ∧ listIncludes
          (" data-react-props=\"".toList
            ++ propsAttr (Json.obj (.cons "name".toList (.str "John".toList) .nil))
            ++ ['"', '>'])
          (renderTag "Header".toList
            (some (Json.obj (.cons "name".toList (.str "John".toList) .nil))) none
            (fun nm pr => (renderReactComponentToString [("Header".toList, ())]
              (fun _ _ => ['R']) nm pr).1)) = true
      ∧ jsonParse (quotUnescape (propsAttr
          (Json.obj (.cons "name".toList (.str "John".toList) .nil))))
        = some (Json.obj (.cons "name".toList (.str "John".toList) .nil))) :=
  ⟨rfl, rfl,
    c1_props_attribute_roundtrip [("Header".toList, ())] (fun _ _ => ['R'])
      "Header".toList () (.cons "name".toList (.str "John".toList) .nil)
      rfl rfl⟩

/-- Claim C5 (counterexample): for the container holding `tag: div` and
`class: a"b"c`, the emitted markup contains ` class="a&quot;b"c"` — only the
first double quote of the value is escaped, because `replace` with a plain
string pattern rewrites a single occurrence — and it does not contain the
fully escaped ` class="a&quot;b&quot;c"`. -/
theorem c5_counterexample :
    listIncludes " class=\"a&quot;b&quot;c\"".toList
      (renderTag "H".toList none
        (some [("tag".toList, "div".toList),
               ("class".toList, ['a', '"', 'b', '"', 'c'])])
        (fun _ _ => some ['R'])) = false
    ∧ listIncludes " class=\"a&quot;b\"c\"".toList
      (renderTag "H".toList none
        (some [("tag".toList, "div".toList),
               ("class".toList, ['a', '"', 'b', '"', 'c'])])
        (fun _ _ => some ['R'])) = true :=
  ⟨rfl, rfl⟩

theorem foldr_attrOf_append (A : List (List Char × List Char)) :
    ∀ X, A.foldr (fun kv acc => attrOf kv ++ acc) X
      = A.foldr (fun kv acc => attrOf kv ++ acc) [] ++ X := by
  induction A with
  | nil => intro X; simp
  | cons kv A ih =>
    intro X
    rw [List.foldr_cons, List.foldr_cons, ih X, List.append_assoc]

/-- Claim C5 (amended): at render time the emitted code enumerates every own
key of the evaluated container except `tag` and emits each one as a
`key="value"` attribute in which the FIRST embedded double quote of the value
has been escaped to `&quot;` (later double quotes are left unchanged): the
attribute loop's output is the filtered enumeration, each non-`tag` entry's
attribute text occurs in the markup, and the escaping rewrites exactly the
first quote of a value and nothing else. -/
theorem c5_container_attributes (n : List Char) (propsVal : Option Json)
    (m : List (List Char × List Char))
    (ext : List Char → Json → Option (List Char)) :
    (attrLoop m ('<' :: tagNameOf m)
      = ('<' :: tagNameOf m)
        ++ (m.filter fun kv => kv.1 ≠ "tag".toList).foldr
            (fun kv acc => attrOf kv ++ acc) [])
    ∧ (∀ kv ∈ m, kv.1 ≠ "tag".toList →
        listIncludes (attrOf kv) (renderTag n propsVal (some m) ext) = true)
    ∧ (∀ v : List Char, '"' ∉ v → replaceFirstQuote v = v)
    ∧ (∀ (a b : List Char), '"' ∉ a →
        replaceFirstQuote (a ++ '"' :: b) = a ++ quotEnt ++ b) := by
  refine ⟨attrLoop_eq_filter m ('<' :: tagNameOf m), ?_,
    replaceFirstQuote_no_quote, fun a b ha => replaceFirstQuote_first b a ha⟩
  intro kv hkv hne
  obtain ⟨m1, m2, hm⟩ := List.append_of_mem hkv
  subst hm
  have hne2 : kv.1 ≠ (['t', 'a', 'g'] : List Char) := by simpa using hne
  have hfil : ((m1 ++ kv :: m2).filter fun kv2 => kv2.1 ≠ "tag".toList)
      = (m1.filter fun kv2 => kv2.1 ≠ "tag".toList)
        ++ kv :: (m2.filter fun kv2 => kv2.1 ≠ "tag".toList) := by
    rw [List.filter_append, List.filter_cons]
    simp [hne2]
  have hloop := attrLoop_eq_filter (m1 ++ kv :: m2)
    ('<' :: tagNameOf (m1 ++ kv :: m2))
  rw [hfil] at hloop
  have hattr : attrLoop (m1 ++ kv :: m2) ('<' :: tagNameOf (m1 ++ kv :: m2))
      = (('<' :: tagNameOf (m1 ++ kv :: m2))
          ++ (m1.filter fun kv2 => kv2.1 ≠ "tag".toList).foldr
              (fun kv2 acc => attrOf kv2 ++ acc) [])
        ++ attrOf kv
        ++ (m2.filter fun kv2 => kv2.1 ≠ "tag".toList).foldr
            (fun kv2 acc => attrOf kv2 ++ acc) [] := by
    rw [hloop, List.foldr_append, List.foldr_cons, foldr_attrOf_append]
    simp [List.append_assoc]
  have hshape : renderTag n propsVal (some (m1 ++ kv :: m2)) ext
      = (('<' :: tagNameOf (m1 ++ kv :: m2))
          ++ (m1.filter fun kv2 => kv2.1 ≠ "tag".toList).foldr
              (fun kv2 acc => attrOf kv2 ++ acc) [])
        ++ attrOf kv
        ++ ((m2.filter fun kv2 => kv2.1 ≠ "tag".toList).foldr
              (fun kv2 acc => attrOf kv2 ++ acc) []
          ++ (" data-react-component=\"".toList ++ n ++ ['"']
            ++ (" data-react-props=\"".toList
              ++ propsAttr (jsPropsOrEmpty propsVal)
              ++ ('"' :: '>' :: (jsStrOfOpt (ext n (jsPropsOrEmpty propsVal))
                ++ closeTagOf (m1 ++ kv :: m2)))))) := by
    simp only [renderTag, openTagOf, Option.getD]
    rw [hattr]
    simp [List.append_assoc]
  rw [hshape]
  exact listIncludes_append_middle _ _ _

/-- Witness for the amended claim C5 at a concrete container whose `class`
value holds two double quotes. -/
theorem c5_witness :
    (("class".toList, ['a', '"', 'b', '"', 'c'])
        ∈ [("tag".toList, "div".toList),
           ("class".toList, ['a', '"', 'b', '"', 'c'])]
      ∧ ("class".toList : List Char) ≠ "tag".toList
      ∧ listIncludes (attrOf ("class".toList, ['a', '"', 'b', '"', 'c']))
          (renderTag "H".toList none
            (some [("tag".toList, "div".toList),
                   ("class".toList, ['a', '"', 'b', '"', 'c'])])
            (fun _ _ => some ['R'])) = true)
    ∧ ('"' ∉ (['a'] : List Char)
      ∧ replaceFirstQuote (['a'] ++ '"' :: ['b']) = ['a'] ++ quotEnt ++ ['b']) := by
  refine ⟨⟨by decide, by decide, ?_⟩, by decide, ?_⟩
  · exact (c5_container_attributes "H".toList none
      [("tag".toList, "div".toList),
       ("class".toList, ['a', '"', 'b', '"', 'c'])]
      (fun _ _ => some ['R'])).2.1
      ("class".toList, ['a', '"', 'b', '"', 'c']) (by decide) (by decide)
  · exact (c5_container_attributes "H".toList none []
      (fun _ _ => some ['R'])).2.2.2 ['a'] ['b'] (by decide)

end WebhookReactTag
